import Mathlib

/-!
# Verification of the Lumina sequence-packing core (`src/models/lumina/model.py`)

Shallow embedding of the patchify / unpatchify reshapes, position-id
construction, padding masks, rotary frequency tables, and grouped-query
attention head bookkeeping of the Lumina diffusion-transformer model.

Tensors are modeled as total index functions (an image `[C,H,W]` is a
function `ℕ → ℕ → ℕ → α`); each PyTorch `view` / `permute` / `flatten`
in the source becomes one index-arithmetic combinator, so the Lean
definitions mirror the source op-for-op.  Where the shape (number of
elements along a dimension) matters, lists are used instead.
-/

namespace Lumina

/-! ## Patchify (model.py lines 697-707)

Source, per image `img : [C, H, W]` with `pH = pW = patch_size`:

    img.view(C, H // pH, pH, W // pW, pW)
       .permute(1, 3, 2, 4, 0)
       .flatten(2)
       .flatten(0, 1)

`view` on a row-major `[C,H,W]` buffer succeeds exactly when
`C*H*W = C*(H//pH)*pH*(W//pW)*pW`; when it succeeds (H, W divisible by
the patch size), index `(c, ht, ph, wt, pw)` of the viewed tensor reads
pixel `(c, ht*pH + ph, wt*pW + pw)` of the image.  A `flatten` of
adjacent dimensions of sizes `(a, b)` sends merged index `j` to
`(j / b, j % b)`. -/

/-- `img.view(C, H // pH, pH, W // pW, pW)` in the divisible case:
index `(c, ht, ph, wt, pw)` reads pixel `(c, ht*p + ph, wt*p + pw)`. -/
def view5 {α : Type} (p : ℕ) (img : ℕ → ℕ → ℕ → α) :
    ℕ → ℕ → ℕ → ℕ → ℕ → α :=
  fun c ht ph wt pw => img c (ht * p + ph) (wt * p + pw)

/-- `.permute(1, 3, 2, 4, 0)`: result index `(ht, wt, ph, pw, c)` reads
source index `(c, ht, ph, wt, pw)`. -/
def permute13240 {α : Type} (g : ℕ → ℕ → ℕ → ℕ → ℕ → α) :
    ℕ → ℕ → ℕ → ℕ → ℕ → α :=
  fun ht wt ph pw c => g c ht ph wt pw

/-- `.flatten(2)` on a `[Ht, Wt, pH, pW, C]` tensor: merges the last three
dimensions (sizes `p, p, C`) into `d = (ph*p + pw)*C + c`. -/
def flatten2to4 {α : Type} (p C : ℕ) (g : ℕ → ℕ → ℕ → ℕ → ℕ → α) :
    ℕ → ℕ → ℕ → α :=
  fun ht wt d => g ht wt (d / C / p) (d / C % p) (d % C)

/-- `.flatten(0, 1)` on a `[Ht, Wt, D]` tensor: merges the first two
dimensions (row length `Wt`) into `t = ht*Wt + wt`. -/
def flatten0to1 {α : Type} (Wt : ℕ) (g : ℕ → ℕ → ℕ → α) : ℕ → ℕ → α :=
  fun t d => g (t / Wt) (t % Wt) d

/-- The patchify transform of `patchify_and_embed` (model.py 697-707):
flat token sequence indexed by `(token, within-token-dim)`. -/
def patchify {α : Type} (p C H W : ℕ) (img : ℕ → ℕ → ℕ → α) : ℕ → ℕ → α :=
  flatten0to1 (W / p) (flatten2to4 p C (permute13240 (view5 p img)))

/-- Effective image token count, model.py line 626:
`l_effective_img_len = [(H // pH) * (W // pW) for (H, W) in img_sizes]`. -/
def effectiveImgLen (p H W : ℕ) : ℕ := (H / p) * (W / p)

/-- The `view` call of patchify (model.py line 702) as PyTorch executes it:
it succeeds only when the element counts agree
(`C*H*W = C*(H//pH)*pH*((W//pW)*pW)`), and raises otherwise. -/
def patchifyChecked {α : Type} (p C H W : ℕ) (img : ℕ → ℕ → ℕ → α) :
    Option (ℕ → ℕ → α) :=
  if C * H * W = C * (H / p) * p * ((W / p) * p) then
    some (patchify p C H W img)
  else
    none

/-! ## Unpatchify (model.py lines 744-771)

Source, per sample, with `begin = cap_size[i]`,
`end = begin + (H // pH) * (W // pW)`, model output row width
`patch_size² · out_channels`:

    x[i][begin:end]
        .view(H // pH, W // pW, pH, pW, self.out_channels)
        .permute(4, 0, 2, 1, 3)
        .flatten(3, 4)
        .flatten(1, 2)

The slice is a `[(Ht*Wt), p*p*C]` tensor; its row-major `view` into
`[Ht, Wt, pH, pW, C]` sends index `(ht, wt, ph, pw, c)` to sequence
position `begin + ht*Wt + wt`, column `(ph*p + pw)*C + c`. -/

/-- `x[i][begin:end].view(Ht, Wt, pH, pW, C)` where the sequence rows
have width exactly `p*p*C`. -/
def viewSlice {α : Type} (b Wt p C : ℕ) (seq : ℕ → ℕ → α) :
    ℕ → ℕ → ℕ → ℕ → ℕ → α :=
  fun ht wt ph pw c => seq (b + (ht * Wt + wt)) ((ph * p + pw) * C + c)

/-- `.permute(4, 0, 2, 1, 3)`: result index `(c, ht, ph, wt, pw)` reads
source index `(ht, wt, ph, pw, c)`. -/
def permute40213 {α : Type} (g : ℕ → ℕ → ℕ → ℕ → ℕ → α) :
    ℕ → ℕ → ℕ → ℕ → ℕ → α :=
  fun c ht ph wt pw => g ht wt ph pw c

/-- `.flatten(3, 4)` on a `[C, Ht, pH, Wt, pW]` tensor: merges the last two
dimensions (inner size `p`) into `w = wt*p + pw`. -/
def flatten3to4 {α : Type} (p : ℕ) (g : ℕ → ℕ → ℕ → ℕ → ℕ → α) :
    ℕ → ℕ → ℕ → ℕ → α :=
  fun c ht ph w => g c ht ph (w / p) (w % p)

/-- `.flatten(1, 2)` on a `[C, Ht, pH, W]` tensor: merges dimensions 1 and 2
(inner size `p`) into `h = ht*p + ph`. -/
def flatten1to2 {α : Type} (p : ℕ) (g : ℕ → ℕ → ℕ → ℕ → α) :
    ℕ → ℕ → ℕ → α :=
  fun c h w => g c (h / p) (h % p) w

/-- The unpatchify transform of `Lumina.unpatchify` (model.py 744-767),
for one sample with caption offset `b`: recovers an image indexed
`(c, h, w)` from the packed output sequence. -/
def unpatchify {α : Type} (p C W b : ℕ) (seq : ℕ → ℕ → α) :
    ℕ → ℕ → ℕ → α :=
  flatten1to2 p (flatten3to4 p (permute40213 (viewSlice b (W / p) p C seq)))

end Lumina

namespace Lumina

/-! ## Round-trip and ordering lemmas -/

theorem patchify_apply {α : Type} (p C H W : ℕ) (img : ℕ → ℕ → ℕ → α)
    (t d : ℕ) :
    patchify p C H W img t d =
      img (d % C) (t / (W / p) * p + d / C / p) (t % (W / p) * p + d / C % p) :=
  rfl

theorem unpatchify_apply {α : Type} (p C W b : ℕ) (seq : ℕ → ℕ → α)
    (c h w : ℕ) :
    unpatchify p C W b seq c h w =
      seq (b + (h / p * (W / p) + w / p)) ((h % p * p + w % p) * C + c) :=
  rfl

/-- Claim C1: For every image `[C,H,W]` with `H`, `W` exact multiples of
`patch_size`, patchify (as in `patchify_and_embed`) followed by
unpatchify with the same `(H, W)` and zero caption offset returns the
original image exactly, at every index. -/
theorem unpatchify_patchify (p C H W : ℕ) (img : ℕ → ℕ → ℕ → ℚ)
    (hp : 0 < p) (hH : p ∣ H) (hW : p ∣ W)
    (c h w : ℕ) (hc : c < C) (hh : h < H) (hw : w < W) :
    unpatchify p C W 0 (patchify p C H W img) c h w = img c h w := by
  have hC : 0 < C := Nat.lt_of_le_of_lt (Nat.zero_le c) hc
  rw [unpatchify_apply, patchify_apply]
  have hwp : w / p < W / p := Nat.div_lt_div_of_lt_of_dvd hW hw
  have hWp : 0 < W / p := Nat.lt_of_le_of_lt (Nat.zero_le (w / p)) hwp
  -- resolve the within-token index d = (h%p * p + w%p) * C + c
  have hdc : ((h % p * p + w % p) * C + c) % C = c := by
    rw [Nat.add_comm, Nat.add_mul_mod_self_right, Nat.mod_eq_of_lt hc]
  have hdq : ((h % p * p + w % p) * C + c) / C = h % p * p + w % p := by
    rw [Nat.add_comm, Nat.add_mul_div_right _ _ hC, Nat.div_eq_of_lt hc,
      Nat.zero_add]
  -- resolve the token index t = 0 + (h/p * (W/p) + w/p)
  have htq : (h / p * (W / p) + w / p) / (W / p) = h / p := by
    rw [Nat.add_comm, Nat.add_mul_div_right _ _ hWp, Nat.div_eq_of_lt hwp,
      Nat.zero_add]
  have htm : (h / p * (W / p) + w / p) % (W / p) = w / p := by
    rw [Nat.add_comm, Nat.add_mul_mod_self_right, Nat.mod_eq_of_lt hwp]
  rw [Nat.zero_add, hdc, hdq, htq, htm]
  have hq2 : (h % p * p + w % p) / p = h % p := by
    rw [Nat.add_comm, Nat.add_mul_div_right _ _ hp,
      Nat.div_eq_of_lt (Nat.mod_lt w hp), Nat.zero_add]
  have hm2 : (h % p * p + w % p) % p = w % p := by
    rw [Nat.add_comm, Nat.add_mul_mod_self_right,
      Nat.mod_eq_of_lt (Nat.mod_lt w hp)]
  rw [hq2, hm2, Nat.div_add_mod', Nat.div_add_mod']

/-- Closed-form evaluation of the round-trip on a concrete image:
`p = 2`, `C = H = W = 4`, pixel values encode their index. -/
theorem unpatchify_patchify_witness :
    0 < 2 ∧ (2:ℕ) ∣ 4 ∧
      unpatchify 2 4 4 0
        (patchify 2 4 4 4 (fun c h w => ((c * 16 + h * 4 + w : ℕ) : ℚ))) 3 2 1
        = ((3 * 16 + 2 * 4 + 1 : ℕ) : ℚ) :=
  ⟨by decide, by decide,
    unpatchify_patchify 2 4 4 4 _ (by decide) (by decide) (by decide)
      3 2 1 (by decide) (by decide) (by decide)⟩

/-- Claim C2: patchify produces the flat token sequence in row-major patch
order — the value at token `r * W_tokens + col`, inner offset
`(ph*p + pw)*C + c`, is pixel `(c, r*p + ph, col*p + pw)` of the image
(patch-row slowest, then patch-column, then channel fastest) — and the
token count `effective_img_len` is `(H/patch) * (W/patch)`. -/
theorem patchify_row_major (p C H W : ℕ) (img : ℕ → ℕ → ℕ → ℚ)
    (hp : 0 < p) (r col ph pw c : ℕ)
    (hcol : col < W / p) (hph : ph < p) (hpw : pw < p) (hc : c < C) :
    patchify p C H W img (r * (W / p) + col) ((ph * p + pw) * C + c)
      = img c (r * p + ph) (col * p + pw)
    ∧ effectiveImgLen p H W = (H / p) * (W / p) := by
  have hC : 0 < C := Nat.lt_of_le_of_lt (Nat.zero_le c) hc
  have hWp : 0 < W / p := Nat.lt_of_le_of_lt (Nat.zero_le col) hcol
  refine ⟨?_, rfl⟩
  rw [patchify_apply]
  have hdc : ((ph * p + pw) * C + c) % C = c := by
    rw [Nat.add_comm, Nat.add_mul_mod_self_right, Nat.mod_eq_of_lt hc]
  have hdq : ((ph * p + pw) * C + c) / C = ph * p + pw := by
    rw [Nat.add_comm, Nat.add_mul_div_right _ _ hC, Nat.div_eq_of_lt hc,
      Nat.zero_add]
  have htq : (r * (W / p) + col) / (W / p) = r := by
    rw [Nat.add_comm, Nat.add_mul_div_right _ _ hWp, Nat.div_eq_of_lt hcol,
      Nat.zero_add]
  have htm : (r * (W / p) + col) % (W / p) = col := by
    rw [Nat.add_comm, Nat.add_mul_mod_self_right, Nat.mod_eq_of_lt hcol]
  have hq2 : (ph * p + pw) / p = ph := by
    rw [Nat.add_comm, Nat.add_mul_div_right _ _ hp, Nat.div_eq_of_lt hpw,
      Nat.zero_add]
  have hm2 : (ph * p + pw) % p = pw := by
    rw [Nat.add_comm, Nat.add_mul_mod_self_right, Nat.mod_eq_of_lt hpw]
  rw [hdc, hdq, htq, htm, hq2, hm2]

/-- Concrete instance of the patchify ordering: `p = 2`, `C = 1`,
`H = W = 4`, token 3 (patch row 1, patch col 1), inner offset 2
(patch-row 1, patch-col 0, channel 0) reads pixel `(0, 3, 2)`. -/
theorem patchify_row_major_witness :
    patchify 2 1 4 4 (fun c h w => ((c * 16 + h * 4 + w : ℕ) : ℚ))
        (1 * (4 / 2) + 1) ((1 * 2 + 0) * 1 + 0)
      = ((0 * 16 + 3 * 4 + 2 : ℕ) : ℚ)
    ∧ effectiveImgLen 2 4 4 = (4 / 2) * (4 / 2) :=
  patchify_row_major 2 1 4 4 _ (by decide) 1 1 1 0 0
    (by decide) (by decide) (by decide) (by decide)

end Lumina

namespace Lumina

/-! ## Position ids (model.py lines 637-665)

Source, per sample `i` with `cap_len = l_effective_cap_len[i]`,
`img_len = l_effective_img_len[i]`, `H_tokens, W_tokens = H // pH, W // pW`:

    position_ids = torch.zeros(bsz, max_seq_len, 3, dtype=torch.int32)
    position_ids[i, :cap_len, 0] = torch.arange(cap_len)
    position_ids[i, cap_len:cap_len+img_len, 0] = cap_len
    row_ids = torch.arange(H_tokens).view(-1, 1).repeat(1, W_tokens).flatten()
    col_ids = torch.arange(W_tokens).view(1, -1).repeat(H_tokens, 1).flatten()
    position_ids[i, cap_len:cap_len+img_len, 1] = row_ids
    position_ids[i, cap_len:cap_len+img_len, 2] = col_ids
-/

/-- `l_effective_cap_len = cap_mask.sum(dim=1)` (model.py 624): the number
of `True` entries of a sample's caption mask. -/
def effectiveCapLen (mask : List Bool) : ℕ :=
  (mask.map fun b => if b then 1 else 0).sum

/-- `row_ids = arange(H_tokens).view(-1, 1).repeat(1, W_tokens).flatten()`
(model.py 652-657). -/
def rowIds (Ht Wt : ℕ) : List ℕ :=
  (List.range Ht).flatMap fun r => List.replicate Wt r

/-- `col_ids = arange(W_tokens).view(1, -1).repeat(H_tokens, 1).flatten()`
(model.py 658-663). -/
def colIds (Ht Wt : ℕ) : List ℕ :=
  (List.range Ht).flatMap fun _ => List.range Wt

/-- One sample's row of the position-id grid (model.py 637-665): the
zero-initialized `[max_seq_len, 3]` tensor after the three slice
assignments above, read at sequence index `s`. -/
def positionIds (Ht Wt capLen : ℕ) (s : ℕ) : ℕ × ℕ × ℕ :=
  if s < capLen then (s, 0, 0)
  else if s < capLen + Ht * Wt then
    (capLen, (rowIds Ht Wt).getD (s - capLen) 0, (colIds Ht Wt).getD (s - capLen) 0)
  else (0, 0, 0)

/-- Indexing a concatenation of equal-length replicated blocks: entry
`j * nRep + k` of `l.flatMap (replicate nRep ·)` is entry `j` of `l`. -/
theorem flatMap_replicate_getD {α : Type} (nRep : ℕ) (d : α) :
    ∀ (l : List α) (j k : ℕ), j < l.length → k < nRep →
      (l.flatMap fun h => List.replicate nRep h).getD (j * nRep + k) d
        = l.getD j d := by
  intro l
  induction l with
  | nil => intro j k hj _; simp at hj
  | cons b t ih =>
    intro j k hj hk
    rw [List.flatMap_cons]
    cases j with
    | zero =>
      rw [Nat.zero_mul, Nat.zero_add,
        List.getD_append _ _ _ k (by simpa using hk)]
      simp [List.getD_eq_getElem?_getD, List.getElem?_replicate, hk]
    | succ j =>
      have heq : (j + 1) * nRep + k = nRep + (j * nRep + k) := by ring
      rw [heq, List.getD_append_right _ _ _ _
        (by simpa using Nat.le_add_right nRep (j * nRep + k))]
      simp only [List.length_replicate, Nat.add_sub_cancel_left,
        List.getD_cons_succ]
      exact ih j k (by simpa using hj) hk

/-- Indexing a concatenation of copies of one block: entry
`j * blk.length + k` of `l.flatMap (fun _ => blk)` is entry `k` of `blk`. -/
theorem flatMap_const_getD {α β : Type} (blk : List α) (d : α) :
    ∀ (l : List β) (j k : ℕ), j < l.length → k < blk.length →
      (l.flatMap fun _ => blk).getD (j * blk.length + k) d = blk.getD k d := by
  intro l
  induction l with
  | nil => intro j k hj _; simp at hj
  | cons b t ih =>
    intro j k hj hk
    rw [List.flatMap_cons]
    cases j with
    | zero =>
      rw [Nat.zero_mul, Nat.zero_add, List.getD_append _ _ _ k hk]
    | succ j =>
      have heq : (j + 1) * blk.length + k
          = blk.length + (j * blk.length + k) := by ring
      rw [heq, List.getD_append_right _ _ _ _
        (Nat.le_add_right blk.length (j * blk.length + k)),
        Nat.add_sub_cancel_left]
      exact ih j k (by simpa using hj) hk

theorem rowIds_getD (Ht Wt r k : ℕ) (hr : r < Ht) (hk : k < Wt) :
    (rowIds Ht Wt).getD (r * Wt + k) 0 = r := by
  rw [rowIds, flatMap_replicate_getD Wt 0 (List.range Ht) r k
    (by simpa using hr) hk]
  rw [List.getD_eq_getElem _ _ (by simpa using hr), List.getElem_range]

theorem colIds_getD (Ht Wt r k : ℕ) (hr : r < Ht) (hk : k < Wt) :
    (colIds Ht Wt).getD (r * Wt + k) 0 = k := by
  have hlen : r * Wt + k = r * (List.range Wt).length + k := by
    rw [List.length_range]
  rw [colIds, hlen, flatMap_const_getD (List.range Wt) 0 (List.range Ht) r k
    (by simpa using hr) (by simpa using hk)]
  rw [List.getD_eq_getElem _ _ (by simpa using hk), List.getElem_range]

/-- Claim C3: the position-id grid assigns caption token `j`
(`j < effective_caption_len`) the triple `(j, 0, 0)`; image token at grid
position `(row, col)` the triple `(effective_caption_len, row, col)`;
and every token at or beyond `effective_caption_len + effective_image_len`
the triple `(0, 0, 0)`. -/
theorem position_ids_spec (p H W : ℕ) (capMask : List Bool) :
    (∀ j, j < effectiveCapLen capMask →
        positionIds (H / p) (W / p) (effectiveCapLen capMask) j = (j, 0, 0)) ∧
    (∀ row col, row < H / p → col < W / p →
        positionIds (H / p) (W / p) (effectiveCapLen capMask)
            (effectiveCapLen capMask + (row * (W / p) + col))
          = (effectiveCapLen capMask, row, col)) ∧
    (∀ s, effectiveCapLen capMask + effectiveImgLen p H W ≤ s →
        positionIds (H / p) (W / p) (effectiveCapLen capMask) s = (0, 0, 0)) := by
  set n := effectiveCapLen capMask with hn
  refine ⟨fun j hj => ?_, fun row col hr hcol => ?_, fun s hs => ?_⟩
  · rw [positionIds, if_pos hj]
  · have hx : row * (W / p) + col < (H / p) * (W / p) := by
      calc row * (W / p) + col < (row + 1) * (W / p) := by
            rw [Nat.succ_mul]; exact Nat.add_lt_add_left hcol _
        _ ≤ (H / p) * (W / p) := Nat.mul_le_mul_right _ hr
    rw [positionIds, if_neg (Nat.not_lt.mpr (Nat.le_add_right n _)),
      if_pos (Nat.add_lt_add_left hx n), Nat.add_sub_cancel_left,
      rowIds_getD _ _ _ _ hr hcol, colIds_getD _ _ _ _ hr hcol]
  · have hs' : n + (H / p) * (W / p) ≤ s := hs
    rw [positionIds,
      if_neg (Nat.not_lt.mpr (Nat.le_trans (Nat.le_add_right n _) hs')),
      if_neg (Nat.not_lt.mpr hs')]

/-- Concrete instance of the position-id grid: `p = 2`, `H = W = 4`,
caption mask `[T, T, F, F]` (so `effective_caption_len = 2`). -/
theorem position_ids_spec_witness :
    positionIds (4 / 2) (4 / 2) (effectiveCapLen [true, true, false, false]) 1
        = (1, 0, 0) ∧
      positionIds (4 / 2) (4 / 2) (effectiveCapLen [true, true, false, false])
          (effectiveCapLen [true, true, false, false] + (1 * (4 / 2) + 1))
        = (effectiveCapLen [true, true, false, false], 1, 1) ∧
      positionIds (4 / 2) (4 / 2) (effectiveCapLen [true, true, false, false]) 7
        = (0, 0, 0) :=
  ⟨(position_ids_spec 2 4 4 [true, true, false, false]).1 1 (by decide),
    (position_ids_spec 2 4 4 [true, true, false, false]).2.1 1 1
      (by decide) (by decide),
    (position_ids_spec 2 4 4 [true, true, false, false]).2.2 7 (by decide)⟩

end Lumina

namespace Lumina

/-! ## Packed-sequence mask (model.py lines 628-635, 728-742)

Source:

    max_seq_len = max(cap_len + img_len for ...)
    mask = torch.zeros(bsz, max_seq_len, dtype=torch.bool)
    mask[i, : cap_len + img_len] = True
-/

/-- `max_seq_len` (model.py 628-633): the maximum over samples of
`effective_caption_len + effective_image_len`. -/
def maxSeqLen (capLens imgLens : List ℕ) : ℕ :=
  ((capLens.zip imgLens).map fun q => q.1 + q.2).foldl max 0

/-- One sample's row of the packed-sequence mask (model.py 728, 736):
a zero (`False`) row of length `max_seq_len` whose first
`cap_len + img_len` entries are set `True`. -/
def seqMask (M n : ℕ) : List Bool :=
  List.replicate n true ++ List.replicate (M - n) false

theorem seqMask_length (M n : ℕ) (h : n ≤ M) : (seqMask M n).length = M := by
  simp [seqMask]; omega

theorem seqMask_count (M n : ℕ) : (seqMask M n).count true = n := by
  simp [seqMask, List.count_append, List.count_replicate]

theorem seqMask_getD (M n : ℕ) (s : ℕ) :
    (seqMask M n).getD s false = decide (s < n) := by
  by_cases hs : s < n
  · rw [seqMask, List.getD_append _ _ _ s (by simpa using hs)]
    simp [List.getD_eq_getElem?_getD, List.getElem?_replicate, hs]
  · rw [seqMask, List.getD_append_right _ _ _ _
      (by simpa using Nat.not_lt.mp hs)]
    rw [List.length_replicate, List.getD_eq_getElem?_getD,
      List.getElem?_replicate]
    split <;> simp [hs]

theorem le_foldl_max (l : List ℕ) :
    ∀ (a x : ℕ), x ∈ l ∨ x ≤ a → x ≤ l.foldl max a := by
  induction l with
  | nil =>
    intro a x h
    rcases h with h | h
    · simp at h
    · simpa using h
  | cons b t ih =>
    intro a x h
    rw [List.foldl_cons]
    rcases h with h | h
    · rcases List.mem_cons.mp h with h | h
      · exact ih _ _ (Or.inr (h ▸ Nat.le_max_right a b))
      · exact ih _ _ (Or.inl h)
    · exact ih _ _ (Or.inr (Nat.le_trans h (Nat.le_max_left a b)))

/-- Every sample's effective total length is at most `max_seq_len`. -/
theorem effective_len_le_maxSeqLen (capLens imgLens : List ℕ) (i : ℕ)
    (hi : i < (capLens.zip imgLens).length) :
    ((capLens.zip imgLens).getD i (0, 0)).1
        + ((capLens.zip imgLens).getD i (0, 0)).2
      ≤ maxSeqLen capLens imgLens := by
  rw [maxSeqLen]
  refine le_foldl_max _ 0 _ (Or.inl ?_)
  rw [List.getD_eq_getElem _ _ hi]
  exact List.mem_map_of_mem _ (List.getElem_mem hi)

/-- Claim C4: each sample's mask row has exactly
`effective_caption_len + effective_image_len` `True` entries, contiguous
from index 0; in the example scenario (`patch_size = 2`, one sample with
image `[4,4,4]`, caption mask `[T,T,F,F]`) the packed length is 6 and the
mask has exactly 6 `True` entries at positions 0..5. -/
theorem mask_spec (M n : ℕ) (h : n ≤ M) :
    (seqMask M n).length = M ∧
    (seqMask M n).count true = n ∧
    (∀ s, (seqMask M n).getD s false = decide (s < n)) ∧
    effectiveCapLen [true, true, false, false] = 2 ∧
    effectiveImgLen 2 4 4 = 4 ∧
    maxSeqLen [effectiveCapLen [true, true, false, false]]
        [effectiveImgLen 2 4 4] = 6 ∧
    (seqMask 6 6).count true = 6 ∧
    (∀ s, (seqMask 6 6).getD s false = decide (s < 6)) := by
  exact ⟨seqMask_length M n h, seqMask_count M n, seqMask_getD M n,
    by decide, by decide, by decide, seqMask_count 6 6, seqMask_getD 6 6⟩

/-- Concrete instance of the mask shape: the example scenario's own mask
(`max_seq_len = 6`, `n = 6`). -/
theorem mask_spec_witness :
    6 ≤ 6 ∧ (seqMask 6 6).length = 6 ∧ (seqMask 6 6).count true = 6 :=
  ⟨Nat.le_refl 6, (mask_spec 6 6 (Nat.le_refl 6)).1,
    (mask_spec 6 6 (Nat.le_refl 6)).2.1⟩

end Lumina

namespace Lumina

/-! ## Rotary frequency tables (`precompute_freqs_cis`, model.py 14-50)

Source, per axis pair `(d, e)` in `zip(dim, end)`:

    freqs = 1.0 / (theta ** (torch.arange(0, d, 2) / d))
    timestep = torch.arange(e)
    freqs = torch.outer(timestep, freqs)
    freqs_cis_i = torch.polar(torch.ones_like(freqs), freqs)

`arange(0, d, 2)` has `⌈d/2⌉` entries, the `k`-th being `2k`;
`polar(1, angle)` is the unit complex number `exp(angle · i)`. -/

/-- The `k`-th entry of `freqs = 1.0 / (theta ** (arange(0, d, 2) / d))`
(model.py 40-42). -/
noncomputable def freqVal (theta : ℝ) (d k : ℕ) : ℝ :=
  1 / theta ^ ((2 * k : ℝ) / d)

/-- Entry `(p, k)` of `torch.polar(torch.ones_like(freqs), freqs)` after
`freqs = torch.outer(timestep, freqs)` (model.py 43-47). -/
noncomputable def freqsCisEntry (theta : ℝ) (d p k : ℕ) : ℂ :=
  Complex.exp ((((p : ℝ) * freqVal theta d k : ℝ) : ℂ) * Complex.I)

/-- `precompute_freqs_cis(dim, end, theta)` (model.py 14-50): one complex
table per axis pair of `zip(dim, end)`, of shape `[e, ⌈d/2⌉]`. -/
noncomputable def precompute_freqs_cis (dims lens : List ℕ) (theta : ℝ) :
    List (List (List ℂ)) :=
  (dims.zip lens).map fun de =>
    (List.range de.2).map fun p =>
      (List.range ((de.1 + 1) / 2)).map fun k => freqsCisEntry theta de.1 p k

/-- Claim C5: for even axis dimensions, `precompute_freqs_cis` produces,
per axis `i`, a table of shape `[axes_lens[i], axes_dims[i]/2]` whose
`(p, k)` entry is the unit-magnitude complex exponential with angle
`p · theta^(-2k/axes_dims[i])`; in particular every entry has
magnitude 1. -/
theorem precompute_freqs_cis_spec (dims lens : List ℕ) (theta : ℝ)
    (htheta : 0 < theta) (i : ℕ) (hd : i < dims.length) (hl : i < lens.length)
    (heven : Even (dims.getD i 0)) :
    (precompute_freqs_cis dims lens theta).length
        = min dims.length lens.length ∧
    ((precompute_freqs_cis dims lens theta).getD i []).length
        = lens.getD i 0 ∧
    (∀ pos, pos < lens.getD i 0 →
      (((precompute_freqs_cis dims lens theta).getD i []).getD pos []).length
        = dims.getD i 0 / 2) ∧
    (∀ pos k, pos < lens.getD i 0 → k < dims.getD i 0 / 2 →
      ((((precompute_freqs_cis dims lens theta).getD i []).getD pos []).getD k 0)
        = Complex.exp
            ((((pos : ℝ) * theta ^ (-(2 * k : ℝ) / (dims.getD i 0)) : ℝ) : ℂ)
              * Complex.I)) ∧
    (∀ pos k, pos < lens.getD i 0 → k < dims.getD i 0 / 2 →
      Complex.abs
          ((((precompute_freqs_cis dims lens theta).getD i []).getD pos []).getD k 0)
        = 1) := by
  have hzip : i < (dims.zip lens).length := by
    rw [List.length_zip]; omega
  have hT : (precompute_freqs_cis dims lens theta).getD i []
      = (List.range (lens.getD i 0)).map fun p =>
          (List.range ((dims.getD i 0 + 1) / 2)).map fun k =>
            freqsCisEntry theta (dims.getD i 0) p k := by
    rw [precompute_freqs_cis,
      List.getD_eq_getElem _ _ (by simpa using hzip), List.getElem_map,
      List.getElem_zip, List.getD_eq_getElem dims 0 hd,
      List.getD_eq_getElem lens 0 hl]
  obtain ⟨m, hm⟩ := heven
  have hhalf : (dims.getD i 0 + 1) / 2 = dims.getD i 0 / 2 := by omega
  have hrow : ∀ pos, pos < lens.getD i 0 →
      ((precompute_freqs_cis dims lens theta).getD i []).getD pos []
        = (List.range (dims.getD i 0 / 2)).map fun k =>
            freqsCisEntry theta (dims.getD i 0) pos k := by
    intro pos hpos
    rw [hT, List.getD_eq_getElem _ _ (by simpa using hpos), List.getElem_map,
      List.getElem_range, hhalf]
  have hent : ∀ pos k, pos < lens.getD i 0 → k < dims.getD i 0 / 2 →
      (((precompute_freqs_cis dims lens theta).getD i []).getD pos []).getD k 0
        = freqsCisEntry theta (dims.getD i 0) pos k := by
    intro pos k hpos hk
    rw [hrow pos hpos, List.getD_eq_getElem _ _ (by simpa using hk),
      List.getElem_map, List.getElem_range]
  refine ⟨by simp [precompute_freqs_cis], ?_, ?_, ?_, ?_⟩
  · rw [hT]; simp
  · intro pos hpos
    rw [hrow pos hpos]; simp
  · intro pos k hpos hk
    rw [hent pos k hpos hk, freqsCisEntry, freqVal, neg_div,
      Real.rpow_neg htheta.le, one_div]
  · intro pos k hpos hk
    rw [hent pos k hpos hk, freqsCisEntry]
    exact Complex.abs_exp_ofReal_mul_I _

/-- Concrete instance of the rotary table spec at the default Lumina
configuration `axes_dims = [16, 56, 56]`, `axes_lens = [1, 512, 512]`,
`theta = 10000`, axis 0. -/
theorem precompute_freqs_cis_spec_witness :
    (0 : ℝ) < 10000 ∧ Even ([16, 56, 56].getD 0 0) ∧
      (precompute_freqs_cis [16, 56, 56] [1, 512, 512] 10000).length
        = min 3 3 ∧
      Complex.abs
          ((((precompute_freqs_cis [16, 56, 56] [1, 512, 512] 10000).getD 0 []).getD 0 []).getD 3 0)
        = 1 :=
  ⟨by norm_num, by decide,
    (precompute_freqs_cis_spec [16, 56, 56] [1, 512, 512] 10000 (by norm_num)
      0 (by decide) (by decide) (by decide)).1,
    (precompute_freqs_cis_spec [16, 56, 56] [1, 512, 512] 10000 (by norm_num)
      0 (by decide) (by decide) (by decide)).2.2.2.2 0 3 (by decide) (by decide)⟩

end Lumina

namespace Lumina

/-! ## Forward output mode (model.py 799, 812; unpatchify 769-771)

Source:

    x_is_tensor = isinstance(x, torch.Tensor)          # forward, line 799
    ...
    x = self.unpatchify(x, img_size, cap_size, return_tensor=x_is_tensor)

and in `unpatchify`:

    if return_tensor:
        imgs = torch.stack(imgs, dim=0)

The input `x` is either one batched `[N, C, H, W]` tensor (iterating it
yields `N` same-shaped `[C, H, W]` slices) or a Python list of per-sample
`[C, H, W]` tensors of possibly differing sizes. -/

/-- The two forms the `forward` input `x` can take, tracked by shape. -/
inductive ImagesInput where
  | batched (n C H W : ℕ)
  | samples (shapes : List (ℕ × ℕ × ℕ))

/-- `isinstance(x, torch.Tensor)` (model.py 799). -/
def xIsTensor : ImagesInput → Bool
  | .batched _ _ _ _ => true
  | .samples _ => false

/-- The per-sample `[C, H, W]` shapes obtained by iterating over `x`. -/
def imgShapes : ImagesInput → List (ℕ × ℕ × ℕ)
  | .batched n C H W => List.replicate n (C, H, W)
  | .samples shapes => shapes

/-- `img_sizes = [(img.size(1), img.size(2)) for img in x]` (model.py 625). -/
def imgSizes (x : ImagesInput) : List (ℕ × ℕ) :=
  (imgShapes x).map fun s => (s.2.1, s.2.2)

/-- The two result forms of `unpatchify` (model.py 769-771). -/
inductive PackedOutput (α : Type) where
  | stacked (imgs : List α)
  | perSample (imgs : List α)

/-- `if return_tensor: imgs = torch.stack(imgs, dim=0)` (model.py 769-771). -/
def unpatchifyReturn {α : Type} (imgs : List α) (return_tensor : Bool) :
    PackedOutput α :=
  if return_tensor then .stacked imgs else .perSample imgs

/-- Whether a `PackedOutput` is the single-stacked-tensor form. -/
def PackedOutput.isStacked {α : Type} : PackedOutput α → Bool
  | .stacked _ => true
  | .perSample _ => false

/-- The output form of `Lumina.forward` (model.py 799, 812):
`return_tensor = x_is_tensor`. -/
def forwardOutput {α : Type} (x : ImagesInput) (imgs : List α) :
    PackedOutput α :=
  unpatchifyReturn imgs (xIsTensor x)

/-- Modelled from the spec claim's words: the input images "all shared one
size" when every `(H, W)` in `img_sizes` equals the first one. -/
def allSameSize (x : ImagesInput) : Bool :=
  (imgSizes x).all fun s => s = (imgSizes x).getD 0 (0, 0)

/-- Claim C6 counterexample: a batch passed as a *list* of two images of
one common size `[1, 2, 2]` has homogeneous sizes, yet `forward` returns
the list form, not the stacked form the claim requires. -/
theorem forward_mode_claim_false :
    allSameSize (ImagesInput.samples [(1, 2, 2), (1, 2, 2)]) = true ∧
      (forwardOutput (ImagesInput.samples [(1, 2, 2), (1, 2, 2)])
          ([0, 1] : List ℕ)).isStacked = false := by
  exact ⟨by decide, rfl⟩

/-- Claim C6 (amended): `forward` returns the single stacked tensor exactly
when the input was passed as one batched tensor (`x_is_tensor`), and the
list form otherwise; a batched-tensor input always has homogeneous sizes,
so a batch of heterogeneous sizes always gets the list form — but a list
input with homogeneous sizes gets the list form as well. -/
theorem forward_mode_amended {α : Type} (x : ImagesInput) (imgs : List α) :
    ((forwardOutput x imgs).isStacked = xIsTensor x) ∧
    (xIsTensor x = true → allSameSize x = true) ∧
    (allSameSize x = false → (forwardOutput x imgs).isStacked = false) := by
  have hmode : (forwardOutput x imgs).isStacked = xIsTensor x := by
    cases x <;> rfl
  have hsame : xIsTensor x = true → allSameSize x = true := by
    cases x with
    | batched n C H W =>
      intro _
      rw [allSameSize, imgSizes, imgShapes, List.map_replicate]
      cases n with
      | zero => rfl
      | succ m =>
        apply List.all_eq_true.mpr
        intro s hs
        have h1 := List.eq_of_mem_replicate hs
        simp [h1, List.getD_eq_getElem?_getD, List.getElem?_replicate]
    | samples shapes => intro h; cases h
  exact ⟨hmode, hsame, fun hfalse => by
    rw [hmode]
    cases hx : xIsTensor x with
    | true => rw [hsame hx] at hfalse; cases hfalse
    | false => rfl⟩

end Lumina

namespace Lumina

/-- Concrete instance of the amended output-mode property: a batched-tensor
input of two `[1, 2, 2]` images yields the stacked form. -/
theorem forward_mode_amended_witness :
    (forwardOutput (ImagesInput.batched 2 1 2 2) ([0, 1] : List ℕ)).isStacked
        = xIsTensor (ImagesInput.batched 2 1 2 2)
      ∧ allSameSize (ImagesInput.batched 2 1 2 2) = true :=
  ⟨(forward_mode_amended (ImagesInput.batched 2 1 2 2) [0, 1]).1,
    (forward_mode_amended (ImagesInput.batched 2 1 2 2) [0, 1]).2.1 rfl⟩

/-! ## Failure on non-divisible image sizes (model.py 702)

`patchify_and_embed` performs no explicit divisibility check; the
`img.view(C, H // pH, pH, W // pW, pW)` call is what fails: a PyTorch
`view` raises when the requested shape's element count differs from the
input's, and `C*(H//p)*p*((W//p)*p) = C*H*W` holds exactly when `p`
divides both `H` and `W` (for positive `C`, `H`, `W`). -/

/-- Claim C7: for any image whose height or width is not an exact multiple
of `patch_size`, the patchify step of the pack operation fails (the
`view` cannot reinterpret the buffer) rather than silently truncating. -/
theorem patchify_nondivisible_fails {α : Type} (p C H W : ℕ)
    (img : ℕ → ℕ → ℕ → α) (hC : 0 < C) (hH : 0 < H) (hW : 0 < W)
    (hnd : ¬(p ∣ H ∧ p ∣ W)) :
    patchifyChecked p C H W img = none := by
  rw [patchifyChecked, if_neg]
  intro heq
  have hfact : C * (H / p) * p * ((W / p) * p)
      = C * (H / p * p) * (W / p * p) := by ring
  rw [hfact] at heq
  have hHle : H / p * p ≤ H := Nat.div_mul_le_self H p
  have hWle : W / p * p ≤ W := Nat.div_mul_le_self W p
  have hlt : C * (H / p * p) * (W / p * p) < C * H * W := by
    rcases not_and_or.mp hnd with h | h
    · have hmod : H % p ≠ 0 := fun h0 => h (Nat.dvd_of_mod_eq_zero h0)
      have h2 : H / p * p + H % p = H := Nat.div_add_mod' H p
      have hHlt : H / p * p < H :=
        Nat.lt_of_lt_of_le
          (Nat.lt_add_of_pos_right (Nat.pos_of_ne_zero hmod)) (le_of_eq h2)
      calc C * (H / p * p) * (W / p * p)
          ≤ C * (H / p * p) * W :=
            Nat.mul_le_mul (Nat.le_refl (C * (H / p * p))) hWle
        _ < C * H * W :=
            mul_lt_mul_of_pos_right ((Nat.mul_lt_mul_left hC).mpr hHlt) hW
    · have hmod : W % p ≠ 0 := fun h0 => h (Nat.dvd_of_mod_eq_zero h0)
      have h2 : W / p * p + W % p = W := Nat.div_add_mod' W p
      have hWlt : W / p * p < W :=
        Nat.lt_of_lt_of_le
          (Nat.lt_add_of_pos_right (Nat.pos_of_ne_zero hmod)) (le_of_eq h2)
      calc C * (H / p * p) * (W / p * p)
          ≤ C * H * (W / p * p) :=
            Nat.mul_le_mul (Nat.mul_le_mul (Nat.le_refl C) hHle)
              (Nat.le_refl (W / p * p))
        _ < C * H * W :=
            mul_lt_mul_of_pos_left hWlt (Nat.mul_pos hC hH)
  exact (Nat.ne_of_gt hlt) heq

/-- Concrete failing pack: `p = 2`, image `[1, 3, 4]` (height 3 not
divisible by 2): the patchify `view` fails. -/
theorem patchify_nondivisible_fails_witness :
    0 < 1 ∧ 0 < 3 ∧ 0 < 4 ∧ ¬((2:ℕ) ∣ 3 ∧ (2:ℕ) ∣ 4) ∧
      patchifyChecked 2 1 3 4 (fun _ _ _ => (0 : ℕ)) = none :=
  ⟨by decide, by decide, by decide, by decide,
    patchify_nondivisible_fails 2 1 3 4 _ (by decide) (by decide) (by decide)
      (by decide)⟩

end Lumina

namespace Lumina

/-! ## RopeEmbedder (model.py 470-501)

Source:

    def __init__(self, theta, axes_dims, axes_lens):
        ...
        self.freqs_cis = precompute_freqs_cis(self.axes_dims, self.axes_lens,
                                              theta=self.theta)

    def __call__(self, ids):
        self.freqs_cis = [freqs_cis.to(ids.device) for freqs_cis in self.freqs_cis]
        result = []
        for i in range(len(self.axes_dims)):
            index = ids[:, :, i:i+1].repeat(1, 1, self.freqs_cis[i].shape[-1])
            result.append(torch.gather(self.freqs_cis[i]..., dim=1, index=index))
        return torch.cat(result, dim=-1)

The `__call__` reassignment moves each table to the input's device; a
device move does not change any value, so it is modeled as the identity
on the stored tables. -/

/-- The `RopeEmbedder` object: configuration plus the cached per-axis
frequency tables. -/
structure RopeEmbedder where
  theta : ℝ
  axes_dims : List ℕ
  axes_lens : List ℕ
  freqs_cis : List (List (List ℂ))

/-- `RopeEmbedder.__init__` (model.py 471-483). -/
noncomputable def RopeEmbedder.init (theta : ℝ)
    (axes_dims axes_lens : List ℕ) : RopeEmbedder :=
  { theta := theta, axes_dims := axes_dims, axes_lens := axes_lens,
    freqs_cis := precompute_freqs_cis axes_dims axes_lens theta }

/-- Component `i` of a position-id triple (`ids[:, :, i]`). -/
def axisComponent (pid : ℕ × ℕ × ℕ) : ℕ → ℕ
  | 0 => pid.1
  | 1 => pid.2.1
  | _ => pid.2.2

/-- `RopeEmbedder.__call__` (model.py 485-501): reassigns
`self.freqs_cis` to the device-moved tables (identity on values),
gathers each axis table at the position ids and concatenates across
axes; returns the result and the updated object state. -/
def RopeEmbedder.call (r : RopeEmbedder)
    (ids : List (List (ℕ × ℕ × ℕ))) :
    List (List (List ℂ)) × RopeEmbedder :=
  let fc := r.freqs_cis.map fun t => t
  (ids.map fun row => row.map fun pid =>
      (List.range r.axes_dims.length).flatMap fun i =>
        (fc.getD i []).getD (axisComponent pid i) [],
    { r with freqs_cis := fc })

/-- A sequence of forward passes, each reading and updating the embedder. -/
def RopeEmbedder.runCalls :
    RopeEmbedder → List (List (List (ℕ × ℕ × ℕ))) → RopeEmbedder
  | r, [] => r
  | r, ids :: rest => ((r.call ids).2).runCalls rest

theorem call_preserves_freqs_cis (r : RopeEmbedder)
    (ids : List (List (ℕ × ℕ × ℕ))) :
    ((r.call ids)).2.freqs_cis = r.freqs_cis := by
  simp [RopeEmbedder.call]

/-- Claim C8: the per-axis `freqs_cis` tables are computed once at
construction and never change: after any sequence of calls, the table the
next call reads is the one `precompute_freqs_cis` built at
initialization. -/
theorem rope_table_immutable (theta : ℝ) (dims lens : List ℕ)
    (inputs : List (List (List (ℕ × ℕ × ℕ)))) :
    ((RopeEmbedder.init theta dims lens).runCalls inputs).freqs_cis
      = precompute_freqs_cis dims lens theta := by
  suffices h : ∀ (r : RopeEmbedder) (l : List (List (List (ℕ × ℕ × ℕ)))),
      (r.runCalls l).freqs_cis = r.freqs_cis by
    rw [h]; rfl
  intro r l
  induction l generalizing r with
  | nil => rfl
  | cons ids rest ih =>
    rw [RopeEmbedder.runCalls, ih, call_preserves_freqs_cis]

end Lumina

namespace Lumina

/-! ## Grouped-query attention head bookkeeping (model.py 169-246)

Source:

    self.n_rep = self.n_local_heads // self.n_local_kv_heads   # line 172
    n_rep = self.n_local_heads // self.n_local_kv_heads        # line 226
    if n_rep >= 1:
        xk = xk.unsqueeze(3).repeat(1, 1, 1, n_rep, 1).flatten(2, 3)
        xv = xv.unsqueeze(3).repeat(1, 1, 1, n_rep, 1).flatten(2, 3)
    output = F.scaled_dot_product_attention(...).permute(0, 2, 1, 3)
    output = output.flatten(-2)
-/

/-- `n_rep = n_local_heads // n_local_kv_heads` (model.py 172, 226). -/
def nRep (nHeads nKVHeads : ℕ) : ℕ := nHeads / nKVHeads

/-- `unsqueeze(3).repeat(1, 1, 1, n_rep, 1).flatten(2, 3)` (model.py
228-229) along the kv-head dimension: each kv head becomes `n_rep`
consecutive copies. -/
def repeat_kv {α : Type} (heads : List α) (n : ℕ) : List α :=
  heads.flatMap fun h => List.replicate n h

/-- `output.permute(0, 2, 1, 3)` followed by `output.flatten(-2)`
(model.py 240-244): per token, the per-head attention outputs are
concatenated along the last dimension. -/
def attnFlattenHeads {α : Type} (nHeads : ℕ) (headsOut : ℕ → List α) :
    List α :=
  (List.range nHeads).flatMap fun h => headsOut h

theorem repeat_kv_length {α : Type} (heads : List α) (n : ℕ) :
    (repeat_kv heads n).length = heads.length * n := by
  induction heads with
  | nil => simp [repeat_kv]
  | cons b t ih =>
    rw [repeat_kv, List.flatMap_cons, List.length_append,
      List.length_replicate, ← repeat_kv, ih, List.length_cons,
      Nat.succ_mul, Nat.add_comm]

/-- Claim C9: with `n_kv_heads` dividing `n_heads`, each key/value head is
repeated exactly `n_heads / n_kv_heads` times (consecutively), giving
`n_heads` heads in total — for `n_heads = 8`, `n_kv_heads = 2`, exactly
4 times — and the flattened attention output has last dimension
`n_heads * head_dim`. -/
theorem grouped_query_attention_spec {α : Type} (nHeads nKVHeads headDim : ℕ)
    (kv : List α) (d : α) (hdvd : nKVHeads ∣ nHeads)
    (hkv : kv.length = nKVHeads)
    (headsOut : ℕ → List α) (hout : ∀ h, (headsOut h).length = headDim) :
    (repeat_kv kv (nRep nHeads nKVHeads)).length = nHeads ∧
    (∀ j k, j < nKVHeads → k < nRep nHeads nKVHeads →
      (repeat_kv kv (nRep nHeads nKVHeads)).getD
          (j * nRep nHeads nKVHeads + k) d
        = kv.getD j d) ∧
    nRep 8 2 = 4 ∧
    (attnFlattenHeads nHeads headsOut).length = nHeads * headDim := by
  refine ⟨?_, ?_, rfl, ?_⟩
  · rw [repeat_kv_length, hkv, nRep, Nat.mul_div_cancel' hdvd]
  · intro j k hj hk
    exact flatMap_replicate_getD (nRep nHeads nKVHeads) d kv j k
      (hkv ▸ hj) hk
  · rw [attnFlattenHeads, List.length_flatMap,
      List.map_congr_left (fun h _ => by
        show (List.length ∘ headsOut) h = headDim
        exact hout h),
      List.map_const', List.length_range, List.sum_replicate,
      smul_eq_mul]

/-- Concrete instance of the grouped-query bookkeeping at `n_heads = 8`,
`n_kv_heads = 2`, `head_dim = 3`. -/
theorem grouped_query_attention_spec_witness :
    (repeat_kv [10, 20] (nRep 8 2)).length = 8 ∧
      (repeat_kv [10, 20] (nRep 8 2)).getD (1 * nRep 8 2 + 3) 0 = 20 ∧
      nRep 8 2 = 4 ∧
      (attnFlattenHeads 8 fun _ => [1, 2, 3]).length = 8 * 3 :=
  ⟨(grouped_query_attention_spec 8 2 3 [10, 20] 0 (by decide) (by decide)
      (fun _ => [1, 2, 3]) (fun _ => rfl)).1,
    (grouped_query_attention_spec 8 2 3 [10, 20] 0 (by decide) (by decide)
      (fun _ => [1, 2, 3]) (fun _ => rfl)).2.1 1 3 (by decide) (by decide),
    (grouped_query_attention_spec 8 2 3 [10, 20] 0 (by decide) (by decide)
      (fun _ => [1, 2, 3]) (fun _ => rfl)).2.2.1,
    (grouped_query_attention_spec 8 2 3 [10, 20] 0 (by decide) (by decide)
      (fun _ => [1, 2, 3]) (fun _ => rfl)).2.2.2⟩

end Lumina

namespace Lumina

/-! ## Output channel invariant (model.py 526-529, 601, 744-767)

Source:

    self.in_channels = in_channels
    self.out_channels = in_channels      # line 528, unconditional
    ...
    assert (dim // n_heads) == sum(axes_dims)   # line 603

and `unpatchify` views with `self.out_channels` as the last dimension,
then `permute(4, 0, 2, 1, 3)` makes it the leading (channel) dimension. -/

/-- The configuration fields of a constructed `Lumina` that the packing
core reads. -/
structure LuminaCfg where
  patch_size : ℕ
  in_channels : ℕ
  out_channels : ℕ
  dim : ℕ
  n_heads : ℕ
  axes_dims : List ℕ
  axes_lens : List ℕ

/-- `Lumina.__init__` (model.py 509-608), restricted to those fields:
`out_channels := in_channels` (line 528); the assertion on line 603 makes
construction fail unless `dim / n_heads = sum axes_dims`. -/
def luminaInit (patch_size in_channels dim n_heads : ℕ)
    (axes_dims axes_lens : List ℕ) : Option LuminaCfg :=
  if dim / n_heads = axes_dims.sum then
    some { patch_size := patch_size, in_channels := in_channels,
           out_channels := in_channels, dim := dim, n_heads := n_heads,
           axes_dims := axes_dims, axes_lens := axes_lens }
  else none

/-- The image one sample's unpatchify produces (model.py 757-767), as an
explicit `[out_channels, H, W]` nested list. -/
def unpatchifySample {α : Type} (cfg : LuminaCfg) (seq : ℕ → ℕ → α)
    (H W b : ℕ) : List (List (List α)) :=
  (List.range cfg.out_channels).map fun c =>
    (List.range H).map fun h =>
      (List.range W).map fun w =>
        unpatchify cfg.patch_size cfg.out_channels W b seq c h w

/-- Claim C10: every constructed `Lumina` has `out_channels = in_channels`,
and every image `unpatchify` returns has exactly `in_channels` channels,
whatever the remaining configuration. -/
theorem out_channels_eq_in_channels (ps inC dim nh : ℕ)
    (dims lens : List ℕ) (L : LuminaCfg)
    (hinit : luminaInit ps inC dim nh dims lens = some L) :
    L.out_channels = L.in_channels ∧
    ∀ (seq : ℕ → ℕ → ℚ) (H W b : ℕ),
      (unpatchifySample L seq H W b).length = L.in_channels := by
  rw [luminaInit] at hinit
  split at hinit
  · injection hinit with h
    subst h
    exact ⟨rfl, fun seq H W b => by simp [unpatchifySample]⟩
  · cases hinit

/-- The configuration the default `Lumina()` construction produces. -/
def luminaDefaultCfg : LuminaCfg :=
  { patch_size := 2, in_channels := 4, out_channels := 4, dim := 4096,
    n_heads := 32, axes_dims := [16, 56, 56], axes_lens := [1, 512, 512] }

/-- Concrete instance of the channel invariant at the default
configuration. -/
theorem out_channels_eq_in_channels_witness :
    luminaInit 2 4 4096 32 [16, 56, 56] [1, 512, 512]
        = some luminaDefaultCfg ∧
      luminaDefaultCfg.out_channels = luminaDefaultCfg.in_channels ∧
      (unpatchifySample luminaDefaultCfg (fun _ _ => (0 : ℚ)) 4 4 0).length
        = luminaDefaultCfg.in_channels :=
  ⟨rfl,
    (out_channels_eq_in_channels 2 4 4096 32 [16, 56, 56] [1, 512, 512]
      luminaDefaultCfg rfl).1,
    (out_channels_eq_in_channels 2 4 4096 32 [16, 56, 56] [1, 512, 512]
      luminaDefaultCfg rfl).2 (fun _ _ => (0 : ℚ)) 4 4 0⟩

end Lumina
